import Mathlib

/-!
Verification of the content-extraction and search engine of
`universal_searcher.py` (class `UniversalFileSearcher`).

Strings are modelled as `List Char` (Python `str` is a sequence of code
points); Python character indices become `Nat` indices.  `str.lower()` is
modelled by `Char.toLower` (ASCII case folding, which covers the behaviour
on the ASCII range used throughout).  I/O-dependent steps (opening a file
under an encoding, parsing an archive container, `read_file`) are modelled
as explicit inputs/oracles: the surrounding pure control flow is translated
from the source line by line.
-/

set_option maxRecDepth 4000

namespace UniSearch

/-- One match record, mirroring the dict
`{line, position, match, context, full_line}` built in `search_in_text`
(the `match` key is named `matched` here because `match` is a Lean keyword). -/
structure MatchRecord where
  line : Nat
  position : Nat
  matched : List Char
  context : List Char
  full_line : List Char
deriving DecidableEq

/-- One entry of `results['archive_contents']` built in `search_in_file`:
`{file_in_archive, matches, match_count}`. -/
structure ArchiveEntryResult where
  file_in_archive : List Char
  «matches» : List MatchRecord
  match_count : Nat
deriving DecidableEq

/-- The `results` dict returned by `search_in_file`:
`{file, matches, archive_contents, is_archive, match_count}` plus the
`error` key that is only set in the `except` branch. -/
structure FileResult where
  file : List Char
  «matches» : List MatchRecord
  archive_contents : List ArchiveEntryResult
  is_archive : Bool
  match_count : Nat
  error : Option (List Char)
deriving DecidableEq

/-- The transient union `Union[str, Dict[str, str]]` returned by
`read_file`: plain text, or a mapping entry-name to text (the dict is
modelled as an insertion-ordered association list, as Python dicts are). -/
inductive Content where
  | text (t : List Char)
  | archive (entries : List (List Char × List Char))
deriving DecidableEq

/-- Python slice `l[a:b]` for `0 ≤ a ≤ b` (out-of-range bounds clamp,
`a > b` gives the empty string, exactly as `drop`/`take` do). -/
def slice (l : List Char) (a b : Nat) : List Char :=
  (l.drop a).take (b - a)

/-- The ellipsis marker `"..."` used by `_get_context`. -/
def dots : List Char := ['.', '.', '.']

/-- `UniversalFileSearcher._get_context(line, start, end, context_chars)`.
`max(0, start - context_chars)` is truncated `Nat` subtraction. -/
def _get_context (line : List Char) (start endPos context_chars : Nat) : List Char :=
  let context_start := start - context_chars
  let context_end := min line.length (endPos + context_chars)
  let context := slice line context_start context_end
  let context := if 0 < context_start then dots ++ context else context
  if context_end < line.length then context ++ dots else context

/-- Builds the match dict appended by `search_in_text`: the matched text is
the slice `line[pos:endPos]` of the ORIGINAL line (in the literal branch the
source computes `line[pos:pos + pattern_len]` in both arms of its
conditional expression, i.e. always from the un-folded line). -/
def lineRecord (line : List Char) (lineNo pos endPos : Nat) : MatchRecord :=
  { line := lineNo
    position := pos
    matched := slice line pos endPos
    context := _get_context line pos endPos 50
    full_line := line }

/-- Helper for `strFind`: tries candidate start indices `i, i+1, ...`,
`fuel` of them, and returns the first where `needle` occurs. -/
def findFromAux (hay needle : List Char) (i : Nat) : Nat → Option Nat
  | 0 => none
  | fuel + 1 =>
      if needle.isPrefixOf (hay.drop i) then some i
      else findFromAux hay needle (i + 1) fuel

/-- Python `hay.find(needle, start)`: the least `i ≥ start` with
`hay[i:i+len(needle)] == needle` (hence `i ≤ len(hay)`, with `i = len(hay)`
possible only for the empty needle), else `None` (Python returns `-1`);
in particular a start index past the end of the string never matches,
not even for the empty needle. -/
def strFind (hay needle : List Char) (start : Nat) : Option Nat :=
  if start ≤ hay.length then findFromAux hay needle start (hay.length + 1 - start)
  else none

/-- The `while True` literal-scan loop of `search_in_text`: repeatedly
`find` from `start`, record a match, and continue from `pos + 1`.  The
loop is translated with a fuel argument; since every reported position is
at least `start` and at most `searchLine.length`, successive `start`
values strictly increase and `searchLine.length + 2` units of fuel are
never exhausted. -/
def scanIter (line searchLine patUse : List Char) (patLen lineNo : Nat) :
    Nat → Nat → List MatchRecord
  | _start, 0 => []
  | start, fuel + 1 =>
      match strFind searchLine patUse start with
      | none => []
      | some pos =>
          lineRecord line lineNo pos (pos + patLen) ::
            scanIter line searchLine patUse patLen lineNo (pos + 1) fuel

/-- The literal (non-regex) branch of `search_in_text` for one line:
case-folds line and pattern when `case_sensitive` is false, then runs the
`while` scan from `start = 0`. -/
def literalLine (line pat : List Char) (case_sensitive : Bool) (lineNo : Nat) :
    List MatchRecord :=
  let line_to_search := if case_sensitive then line else line.map Char.toLower
  let pattern_to_use := if case_sensitive then pat else pat.map Char.toLower
  scanIter line line_to_search pattern_to_use pat.length lineNo 0 (line.length + 2)

/-- The Python `re` machinery, abstracted: a compiled-pattern type,
`re.compile(pattern, flags)` (the flag argument is reduced to the
`case_sensitive` bool that determines `re.IGNORECASE`; a raised `re.error`
is the `none` result), and `finditer` returning the `(start(), end())`
spans on one line. -/
structure RegexEngine : Type 1 where
  Compiled : Type
  compile : List Char → Bool → Option Compiled
  finditer : Compiled → List Char → List (Nat × Nat)

/-- A degenerate engine on which every pattern fails to compile; used only
to instantiate theorems at concrete inputs. -/
def noRegex : RegexEngine :=
  { Compiled := Unit
    compile := fun _ _ => none
    finditer := fun _ _ => [] }

/-- `UniversalFileSearcher.search_in_text(text, pattern, case_sensitive, regex)`.
Empty text returns `[]` at once (`if not text`); otherwise the text is split
on `'\n'` and lines are enumerated from 1.  In regex mode a compile failure
(`except re.error`) returns `[]`; otherwise each line's `finditer` spans are
recorded.  In literal mode each line is scanned by the `while` loop. -/
def search_in_text (E : RegexEngine) (text pattern : List Char)
    (case_sensitive regex : Bool) : List MatchRecord :=
  if text.isEmpty then []
  else
    let lines := text.splitOn '\n'
    if regex then
      match E.compile pattern case_sensitive with
      | none => []
      | some r =>
          (lines.enum.map (fun p =>
            (E.finditer r p.2).map (fun se => lineRecord p.2 (p.1 + 1) se.1 se.2))).flatten
    else
      (lines.enum.map (fun p => literalLine p.2 pattern case_sensitive (p.1 + 1))).flatten

/-- The encodings tried by `_read_text_file`, in order. -/
inductive Encoding where
  | utf8
  | cp1251
  | latin1
deriving DecidableEq

/-- Outcome of one `open(file_path, 'r', encoding=...)` + `read()` attempt:
success with the decoded text, a `UnicodeDecodeError`, or any other
exception (`FileNotFoundError`, `PermissionError`, ...). -/
inductive ReadOutcome where
  | ok (s : List Char)
  | decodeErr
  | otherErr
deriving DecidableEq

/-- True on the two failure outcomes (what a bare `except:` catches). -/
def isFailure : ReadOutcome → Bool
  | .ok _ => false
  | .decodeErr => true
  | .otherErr => true

/-- `UniversalFileSearcher._read_text_file(file_path)`, with the file's
behaviour under each attempted encoding supplied as an oracle `attempt`.
The control flow is the source's nested `try`/`except`: UTF-8 first; a
`UnicodeDecodeError` falls through to cp1251, whose bare `except:` falls
through to latin-1, whose bare `except:` returns `""`; any non-decode
exception on the UTF-8 attempt returns `""` directly. -/
def _read_text_file (attempt : Encoding → ReadOutcome) : List Char :=
  match attempt .utf8 with
  | .ok s => s
  | .otherErr => []
  | .decodeErr =>
      match attempt .cp1251 with
      | .ok s => s
      | _ =>
          match attempt .latin1 with
          | .ok s => s
          | _ => []

/-- Index of the last occurrence of `c` in `l` (Python `str.rfind`,
restricted to the cases used here: `none` for Python's `-1`). -/
def rfindIdx (c : Char) (l : List Char) : Option Nat :=
  ((l.enum.filter (fun p => p.2 == c)).map (fun p => p.1)).getLast?

/-- The extension part (with its leading dot) of `os.path.splitext(p)`,
posix flavour: the part of the final path component from its last dot,
provided some earlier character of that component is not a dot (so
`.bashrc` and `...` have no extension, `a/b.txt` gives `.txt`). -/
def splitextExt (p : List Char) : List Char :=
  match rfindIdx '.' p with
  | none => []
  | some dotIndex =>
      let filenameIndex := match rfindIdx '/' p with
        | none => 0
        | some sepIndex => sepIndex + 1
      if filenameIndex ≤ dotIndex then
        if (List.range (dotIndex - filenameIndex)).any
            (fun k => !(p.getD (filenameIndex + k) ' ' == '.')) then
          p.drop dotIndex
        else []
      else []

/-- `os.path.splitext(name)[1][1:].lower()` as computed for every archive
member in `_read_zip_file` / `_read_tar_file`. -/
def memberExt (name : List Char) : List Char :=
  ((splitextExt name).drop 1).map Char.toLower

/-- The inner allow-list of archive-entry extensions shared by
`_read_zip_file`, `_read_rar_file` and `_read_tar_file`. -/
def innerAllow : List (List Char) :=
  ["txt", "csv", "json", "xml", "html", "py", "js", "md", "log"].map String.toList

/-- Python dict assignment `content[filename] = text` on an
insertion-ordered association list: overwrite an existing key in place,
otherwise append. -/
def dictInsert (d : List (List Char × List Char)) (k v : List Char) :
    List (List Char × List Char) :=
  if d.any (fun p => p.1 == k) then d.map (fun p => if p.1 == k then (k, v) else p)
  else d ++ [(k, v)]

/-- One member of a zip archive as seen through `zipfile.ZipInfo`:
its stored name, and the outcome of `zip_ref.open(...).read().decode('utf-8',
errors='ignore')` — `none` when opening/reading raises (the inner bare
`except: continue`).  `is_dir()` is derived from the name, as `zipfile`
does. -/
structure ZipMember where
  filename : List Char
  data : Option (List Char)
deriving DecidableEq

/-- `zipfile.ZipInfo.is_dir()`: the stored name ends with `'/'`. -/
def zipIsDir (m : ZipMember) : Bool :=
  m.filename.getLast? == some '/'

/-- The kind of a tar member: `tarfile` distinguishes regular files
(`isfile()`), directories (`isdir()`), and other members (symlinks, hard
links, devices, FIFOs) which are neither. -/
inductive TarKind where
  | file
  | dir
  | other
deriving DecidableEq

/-- One member of a tar archive as seen through `tarfile.TarInfo`: its
name, kind, and the outcome of `extractfile(member).read().decode('utf-8',
errors='ignore')` — `none` when `extractfile` returns `None` (the `if f:`
guard) or raises (the inner bare `except: continue`). -/
structure TarMember where
  name : List Char
  kind : TarKind
  data : Option (List Char)
deriving DecidableEq

/-- The loop body of `_read_zip_file`: skip directory entries
(`if not file_info.is_dir()`), check the inner allow-list, and record the
entry unless opening/decoding it failed (`except: continue`). -/
def zipStep (content : List (List Char × List Char)) (m : ZipMember) :
    List (List Char × List Char) :=
  if !(zipIsDir m) then
    if innerAllow.contains (memberExt m.filename) then
      match m.data with
      | some t => dictInsert content m.filename t
      | none => content
    else content
  else content

/-- `UniversalFileSearcher._read_zip_file(file_path)`, with the parsed
member list supplied as input; the `for file_info in zip_ref.infolist()`
loop is a fold of `zipStep` over the members in archive order. -/
def _read_zip_file (members : List ZipMember) : List (List Char × List Char) :=
  members.foldl zipStep []

/-- The loop body of `_read_tar_file`: keep only members with
`member.isfile()`, check the inner allow-list, and record the entry unless
`extractfile` returned `None` or reading/decoding it failed. -/
def tarStep (content : List (List Char × List Char)) (m : TarMember) :
    List (List Char × List Char) :=
  if m.kind = TarKind.file then
    if innerAllow.contains (memberExt m.name) then
      match m.data with
      | some t => dictInsert content m.name t
      | none => content
    else content
  else content

/-- `UniversalFileSearcher._read_tar_file(file_path)`, with the parsed
member list supplied as input; the `for member in tar_ref.getmembers()`
loop is a fold of `tarStep` over the members in archive order. -/
def _read_tar_file (members : List TarMember) : List (List Char × List Char) :=
  members.foldl tarStep []

/-- A model of `read_file` and of everything that can go wrong around it
inside `search_in_file`'s `try:` block: for each path, either the decoded
`Content` (plain text or archive mapping) or the message of an escaped
exception (`str(e)` of what the `except Exception` catches). -/
def Fs : Type :=
  List Char → Except (List Char) Content

/-- The loop body of the archive branch of `search_in_file`: state is
`(results['archive_contents'], results['match_count'])`; an entry is
processed only `if text:` (non-empty), and appended only `if file_results:`
(at least one match), accumulating `match_count`. -/
def archiveStep (E : RegexEngine) (pattern : List Char) (case_sensitive regex : Bool)
    (acc : List ArchiveEntryResult × Nat) (entry : List Char × List Char) :
    List ArchiveEntryResult × Nat :=
  if entry.2.isEmpty then acc
  else
    let file_results := search_in_text E entry.2 pattern case_sensitive regex
    if file_results.isEmpty then acc
    else (acc.1 ++ [{ file_in_archive := entry.1
                      «matches» := file_results
                      match_count := file_results.length }],
          acc.2 + file_results.length)

/-- `UniversalFileSearcher.search_in_file(file_path, pattern, case_sensitive, regex)`.
The `results` dict starts at its defaults; decoding is the `fs` oracle.  An
exception escaping the `try:` is caught and recorded as `results['error']`,
leaving the defaults in place (in the model the only fallible step is the
decode, which runs before any result field is written).  A dict result
takes the archive branch, a string result the plain branch. -/
def search_in_file (E : RegexEngine) (fs : Fs) (file_path pattern : List Char)
    (case_sensitive regex : Bool) : FileResult :=
  match fs file_path with
  | .error e =>
      { file := file_path, «matches» := [], archive_contents := [],
        is_archive := false, match_count := 0, error := some e }
  | .ok (.archive entries) =>
      let r := entries.foldl (archiveStep E pattern case_sensitive regex) ([], 0)
      { file := file_path, «matches» := [], archive_contents := r.1,
        is_archive := true, match_count := r.2, error := none }
  | .ok (.text content) =>
      let file_results := search_in_text E content pattern case_sensitive regex
      { file := file_path, «matches» := file_results, archive_contents := [],
        is_archive := false, match_count := file_results.length, error := none }

/-- `pathlib.PurePath.name` for posix paths: the last non-empty
slash-separated component (trailing slashes and repeated slashes are
normalised away). -/
def pathlibName (p : List Char) : List Char :=
  (((p.splitOn '/').filter (fun s => !s.isEmpty)).getLast?).getD []

/-- `pathlib.PurePath.suffix`: the final component's part from its last
dot, provided that dot is neither the first nor the last character of the
component (`.bashrc` and `file.` have no suffix). -/
def pathlibSuffix (name : List Char) : List Char :=
  match rfindIdx '.' name with
  | none => []
  | some i => if 0 < i ∧ i + 1 < name.length then name.drop i else []

/-- `file_path.suffix[1:].lower()` as computed in `search_in_directory`. -/
def pathlibExt (p : List Char) : List Char :=
  ((pathlibSuffix (pathlibName p)).drop 1).map Char.toLower

/-- The key set of `self.supported_extensions` built in `__init__`: the
eleven text extensions plus `zip`/`tar`/`gz`, and `rar` exactly when the
optional `rarfile` library imported (`RAR_SUPPORT`). -/
def supported_extensions (rarSupport : Bool) : List (List Char) :=
  (["txt", "csv", "json", "xml", "html", "py", "js", "md", "log", "ini", "cfg",
    "zip", "tar", "gz"].map String.toList) ++
    (if rarSupport then ["rar".toList] else [])

/-- One entry produced by the `rglob`/`glob` enumeration in
`search_in_directory`: its path and whether `is_file()` holds. -/
structure FsEntry where
  path : List Char
  isFile : Bool
deriving DecidableEq

/-- The loop body of `search_in_directory`: skip non-files, skip files
whose (pathlib) extension is neither supported nor empty, search the rest
and keep results with `match_count > 0`.  The `processed % 10` progress
print is output-only and not modelled. -/
def dirStep (E : RegexEngine) (fs : Fs) (rarSupport : Bool)
    (pattern : List Char) (case_sensitive regex : Bool)
    (acc : List FileResult) (e : FsEntry) : List FileResult :=
  if e.isFile then
    let ext := pathlibExt e.path
    if (supported_extensions rarSupport).contains ext || ext.isEmpty then
      let result := search_in_file E fs e.path pattern case_sensitive regex
      if 0 < result.match_count then acc ++ [result] else acc
    else acc
  else acc

/-- `UniversalFileSearcher.search_in_directory(directory, pattern,
file_pattern, recursive, case_sensitive, regex)`.  The
`rglob(file_pattern)` / `glob(file_pattern)` enumeration is OS state and is
supplied as the input list `files` (in enumeration order); the loop over it
is translated as a fold of `dirStep`. -/
def search_in_directory (E : RegexEngine) (fs : Fs) (rarSupport : Bool)
    (files : List FsEntry) (pattern : List Char) (case_sensitive regex : Bool) :
    List FileResult :=
  files.foldl (dirStep E fs rarSupport pattern case_sensitive regex) []

/-- Eligibility test of `search_in_directory`, as a predicate:
`ext in self.supported_extensions or ext == ''`. -/
def dirEligible (rarSupport : Bool) (e : FsEntry) : Bool :=
  e.isFile &&
    ((supported_extensions rarSupport).contains (pathlibExt e.path) ||
      (pathlibExt e.path).isEmpty)

/-- Modelled from the spec wording of claim C3 (for the refutation): the
names the claim predicts in a decoded tar mapping — the non-DIRECTORY
entries with allow-listed extension that decode successfully. -/
def claimTarKeys (members : List TarMember) (n : List Char) : Prop :=
  ∃ m ∈ members, m.kind ≠ TarKind.dir ∧ memberExt m.name ∈ innerAllow ∧
    m.data ≠ none ∧ m.name = n

/-- Concrete encoding oracle: UTF-8 decode fails, cp1251 hits a non-decode
error, latin-1 succeeds.  Used only to instantiate theorems. -/
def attemptW : Encoding → ReadOutcome
  | .utf8 => .decodeErr
  | .cp1251 => .otherErr
  | .latin1 => .ok "hi".toList

/-- Concrete decode oracle on which every path raises; used only to
instantiate theorems. -/
def fsErr : Fs := fun _ => .error "boom".toList

/-- Concrete decode oracle: every path is an archive with one matching
entry; used only to instantiate theorems. -/
def fsArch : Fs := fun _ => .ok (.archive [("a.txt".toList, "hit".toList)])

/-- Concrete decode oracle: every path is the plain text `"hit"`; used only
to instantiate theorems. -/
def fsText : Fs := fun _ => .ok (.text "hit".toList)

/-- The single record of the case-insensitive literal search for `"AB"`
over `"aB"`; used only to instantiate theorems. -/
def recW : MatchRecord :=
  { line := 1, position := 0, matched := "aB".toList, context := "aB".toList,
    full_line := "aB".toList }

/-- A single regular-file directory entry named `a.txt`; used only to
instantiate theorems. -/
def entW : FsEntry :=
  { path := "a.txt".toList, isFile := true }

/-- A tar member that is neither a regular file nor a directory (a
symlink, say), with an allow-listed extension and readable content. -/
def tarSymlinkW : TarMember :=
  { name := "a.txt".toList, kind := .other, data := some "x".toList }

/-- Claim C4: in literal mode the scan advances the cursor by one position
after each hit, so overlapping occurrences are found: literal
case-insensitive search for `"aa"` over `"aaa"` returns exactly two match
records, at positions 0 and 1 of line 1. -/
theorem literal_overlap_aa (E : RegexEngine) :
    (search_in_text E "aaa".toList "aa".toList false false).map
      (fun r => (r.line, r.position)) = [(1, 0), (1, 1)] := rfl

/-- Claim C5: for every text and every regex-mode pattern that fails to
compile (a raised `re.error`), `search_in_text` returns the empty list —
never a partial match list — and does not raise. -/
theorem regex_compile_failure_empty (E : RegexEngine) (text pattern : List Char)
    (case_sensitive : Bool) (h : E.compile pattern case_sensitive = none) :
    search_in_text E text pattern case_sensitive true = [] := by
  by_cases ht : text.isEmpty <;> simp [search_in_text, ht, h]

/-- Witness for `regex_compile_failure_empty` at the spec's example input
`search("anything", pattern="(unclosed", useRegex=true)`. -/
theorem regex_compile_failure_empty_witness :
    search_in_text noRegex "anything".toList "(unclosed".toList false true = [] :=
  regex_compile_failure_empty noRegex "anything".toList "(unclosed".toList false rfl

/-- Claim C6: plain-text decoding attempts UTF-8 first, then on decode
failure retries cp1251, then latin-1, adopting the first success; if all
three fail, or on any non-decode error on the first attempt, it returns
the empty string — and it never raises past this boundary (the model is a
total function). -/
theorem read_text_file_fallback_chain (attempt : Encoding → ReadOutcome) :
    (∀ s, attempt .utf8 = .ok s → _read_text_file attempt = s) ∧
    (attempt .utf8 = .otherErr → _read_text_file attempt = []) ∧
    (∀ s, attempt .utf8 = .decodeErr → attempt .cp1251 = .ok s →
      _read_text_file attempt = s) ∧
    (∀ s, attempt .utf8 = .decodeErr → isFailure (attempt .cp1251) = true →
      attempt .latin1 = .ok s → _read_text_file attempt = s) ∧
    (attempt .utf8 = .decodeErr → isFailure (attempt .cp1251) = true →
      isFailure (attempt .latin1) = true → _read_text_file attempt = []) := by
  refine ⟨?_, ?_, ?_, ?_, ?_⟩
  · intro s h; simp [_read_text_file, h]
  · intro h; simp [_read_text_file, h]
  · intro s h1 h2; simp [_read_text_file, h1, h2]
  · intro s h1 h2 h3
    cases hc : attempt .cp1251 with
    | ok t => rw [hc] at h2; simp [isFailure] at h2
    | decodeErr => simp [_read_text_file, h1, hc, h3]
    | otherErr => simp [_read_text_file, h1, hc, h3]
  · intro h1 h2 h3
    cases hc : attempt .cp1251 with
    | ok t => rw [hc] at h2; simp [isFailure] at h2
    | decodeErr =>
        cases hl : attempt .latin1 with
        | ok t => rw [hl] at h3; simp [isFailure] at h3
        | decodeErr => simp [_read_text_file, h1, hc, hl]
        | otherErr => simp [_read_text_file, h1, hc, hl]
    | otherErr =>
        cases hl : attempt .latin1 with
        | ok t => rw [hl] at h3; simp [isFailure] at h3
        | decodeErr => simp [_read_text_file, h1, hc, hl]
        | otherErr => simp [_read_text_file, h1, hc, hl]

/-- Witness for `read_text_file_fallback_chain`: UTF-8 decode failure,
cp1251 non-decode failure, latin-1 success — the latin-1 text is adopted. -/
theorem read_text_file_fallback_chain_witness :
    _read_text_file attemptW = "hi".toList :=
  (read_text_file_fallback_chain attemptW).2.2.2.1 "hi".toList rfl rfl rfl

/-- Claim C1: `search_in_file` never raises (it is a total function of the
decode outcome); when the decode step raises, the exception message is
recorded in `error` and the result keeps its defaults — empty `matches`,
empty `archive_contents`, `is_archive = False`, `match_count = 0`; when
the decode succeeds, no `error` is set. -/
theorem search_in_file_exception_boundary (E : RegexEngine) (fs : Fs)
    (file_path pattern : List Char) (case_sensitive regex : Bool) :
    (∀ e, fs file_path = .error e →
      search_in_file E fs file_path pattern case_sensitive regex =
        { file := file_path, «matches» := [], archive_contents := [],
          is_archive := false, match_count := 0, error := some e }) ∧
    (∀ c, fs file_path = .ok c →
      (search_in_file E fs file_path pattern case_sensitive regex).error = none) := by
  constructor
  · intro e h; simp [search_in_file, h]
  · intro c h; cases c <;> simp [search_in_file, h]

/-- Witness for `search_in_file_exception_boundary` on an oracle whose
decode raises with message `"boom"`. -/
theorem search_in_file_exception_boundary_witness :
    search_in_file noRegex fsErr "f.txt".toList "p".toList false false =
      { file := "f.txt".toList, «matches» := [], archive_contents := [],
        is_archive := false, match_count := 0, error := some "boom".toList } :=
  (search_in_file_exception_boundary noRegex fsErr "f.txt".toList "p".toList
    false false).1 "boom".toList rfl

/-- Every record produced by the literal `while` scan copies the original
line into `full_line` and records as matched text the slice of that
original line at the match span. -/
theorem scanIter_matched (line searchLine patUse : List Char) (patLen lineNo : Nat) :
    ∀ fuel start r, r ∈ scanIter line searchLine patUse patLen lineNo start fuel →
      r.full_line = line ∧ r.matched = slice line r.position (r.position + patLen) := by
  intro fuel
  induction fuel with
  | zero => intro start r h; simp [scanIter] at h
  | succ n ih =>
      intro start r h
      rw [scanIter] at h
      cases hf : strFind searchLine patUse start with
      | none => rw [hf] at h; simp at h
      | some pos =>
          rw [hf] at h
          rcases List.mem_cons.mp h with h1 | h2
          · subst h1; exact ⟨rfl, rfl⟩
          · exact ih (pos + 1) r h2

/-- Claim C7: in literal mode the recorded matched text is always the
original-case slice of the source line at the match span (never the
case-folded line); in particular, case-insensitive literal search for
`"ABC"` over the line `"xx abc yy"` yields exactly one match, at position
3, with matched text `"abc"`. -/
theorem literal_matched_original_case :
    (∀ (E : RegexEngine) (text pattern : List Char) (case_sensitive : Bool)
        (r : MatchRecord), r ∈ search_in_text E text pattern case_sensitive false →
        r.matched = slice r.full_line r.position (r.position + pattern.length)) ∧
    ∀ E : RegexEngine,
      (search_in_text E "xx abc yy".toList "ABC".toList false false).map
        (fun r => (r.line, r.position, r.matched)) = [(1, 3, "abc".toList)] := by
  constructor
  · intro E text pattern case_sensitive r h
    by_cases ht : text.isEmpty
    · simp [search_in_text, ht] at h
    · simp only [search_in_text, ht, Bool.false_eq_true, if_false,
        List.mem_flatten, List.mem_map] at h
      obtain ⟨l, ⟨p, hp, hl⟩, hr⟩ := h
      subst hl
      unfold literalLine at hr
      have hsc := scanIter_matched p.2
        (if case_sensitive then p.2 else p.2.map Char.toLower)
        (if case_sensitive then pattern else pattern.map Char.toLower)
        pattern.length (p.1 + 1) (p.2.length + 2) 0 r hr
      rw [hsc.1]
      exact hsc.2
  · intro E; rfl

/-- Witness for `literal_matched_original_case`: on the line `"aB"` with
pattern `"AB"` (case-insensitive) the single record is in the result and
its matched text is the original-case slice `"aB"`. -/
theorem literal_matched_original_case_witness :
    recW ∈ search_in_text noRegex "aB".toList "AB".toList false false ∧
    recW.matched = slice recW.full_line recW.position
      (recW.position + ("AB".toList).length) :=
  ⟨by decide, literal_matched_original_case.1 noRegex "aB".toList "AB".toList false
    recW (by decide)⟩

/-- The archive loop of `search_in_file` preserves the result invariants:
the running `match_count` is the sum of the recorded entries' counts, and
every recorded entry has `match_count == len(matches) > 0`. -/
theorem archiveFold_invariant (E : RegexEngine) (pattern : List Char)
    (case_sensitive regex : Bool) (entries : List (List Char × List Char)) :
    ∀ acc : List ArchiveEntryResult × Nat,
      acc.2 = (acc.1.map (fun a => a.match_count)).sum →
      (∀ a ∈ acc.1, a.match_count = a.«matches».length ∧ 0 < a.match_count) →
      (entries.foldl (archiveStep E pattern case_sensitive regex) acc).2 =
        (((entries.foldl (archiveStep E pattern case_sensitive regex) acc).1).map
          (fun a => a.match_count)).sum ∧
      ∀ a ∈ (entries.foldl (archiveStep E pattern case_sensitive regex) acc).1,
        a.match_count = a.«matches».length ∧ 0 < a.match_count := by
  induction entries with
  | nil => intro acc h1 h2; exact ⟨h1, h2⟩
  | cons e es ih =>
      intro acc h1 h2
      rw [List.foldl_cons]
      apply ih
      · unfold archiveStep
        by_cases he : e.2.isEmpty
        · simpa [he] using h1
        · by_cases hm : (search_in_text E e.2 pattern case_sensitive regex).isEmpty
          · simpa [he, hm] using h1
          · simp only [he, hm, Bool.false_eq_true, if_false]
            simp [List.map_append, h1]
      · unfold archiveStep
        by_cases he : e.2.isEmpty
        · simpa [he] using h2
        · by_cases hm : (search_in_text E e.2 pattern case_sensitive regex).isEmpty
          · simpa [he, hm] using h2
          · simp only [he, hm, Bool.false_eq_true, if_false]
            intro a ha
            rcases List.mem_append.mp ha with ha1 | ha2
            · exact h2 a ha1
            · rw [List.mem_singleton.mp ha2]
              refine ⟨rfl, ?_⟩
              simpa [List.length_pos, List.isEmpty_iff] using hm

/-- Claim C9: every `FileResult` from `search_in_file` satisfies the
aggregation invariants — for an archive, `match_count` is the sum over
`archive_contents` and `matches` is empty; for a plain file, `match_count`
is `len(matches)` and `archive_contents` is empty; and every recorded
archive entry has `match_count == len(matches) > 0`. -/
theorem file_result_invariants (E : RegexEngine) (fs : Fs)
    (file_path pattern : List Char) (case_sensitive regex : Bool) (r : FileResult)
    (hr : r = search_in_file E fs file_path pattern case_sensitive regex) :
    (r.is_archive = true →
      r.match_count = (r.archive_contents.map (fun a => a.match_count)).sum ∧
      r.«matches» = []) ∧
    (r.is_archive = false →
      r.match_count = r.«matches».length ∧ r.archive_contents = []) ∧
    ∀ a ∈ r.archive_contents, a.match_count = a.«matches».length ∧ 0 < a.match_count := by
  subst hr
  cases hc : fs file_path with
  | error e => simp [search_in_file, hc]
  | ok c =>
      cases c with
      | text t => simp [search_in_file, hc]
      | archive entries =>
          have hinv := archiveFold_invariant E pattern case_sensitive regex entries
            ([], 0) (by simp) (by simp)
          refine ⟨fun _ => ⟨?_, ?_⟩, fun hfalse => ?_, fun a ha => ?_⟩
          · simpa [search_in_file, hc] using hinv.1
          · simp [search_in_file, hc]
          · simp [search_in_file, hc] at hfalse
          · exact hinv.2 a (by simpa [search_in_file, hc] using ha)

/-- Witness for `file_result_invariants` on a concrete one-entry archive:
the archive count equals the sum over its entries and `matches` is empty. -/
theorem file_result_invariants_witness :
    (search_in_file noRegex fsArch "a.zip".toList "hit".toList false false).match_count =
      (((search_in_file noRegex fsArch "a.zip".toList "hit".toList false
        false).archive_contents).map (fun a => a.match_count)).sum ∧
    (search_in_file noRegex fsArch "a.zip".toList "hit".toList false
      false).«matches» = [] :=
  (file_result_invariants noRegex fsArch "a.zip".toList "hit".toList false false
    _ rfl).1 (by decide)

/-- The directory loop, started from any accumulator, appends exactly the
positive-count results of the eligible regular files, in enumeration
order. -/
theorem dirFold_spec (E : RegexEngine) (fs : Fs) (rarSupport : Bool)
    (pattern : List Char) (case_sensitive regex : Bool) :
    ∀ (files : List FsEntry) (acc : List FileResult),
      files.foldl (dirStep E fs rarSupport pattern case_sensitive regex) acc =
        acc ++ (((files.filter (dirEligible rarSupport)).map
          (fun e => search_in_file E fs e.path pattern case_sensitive regex)).filter
            (fun res => decide (0 < res.match_count))) := by
  intro files
  induction files with
  | nil => intro acc; simp
  | cons e es ih =>
      intro acc
      rw [List.foldl_cons, ih]
      by_cases h1 : e.isFile
      · by_cases h2 : pathlibExt e.path ∈ supported_extensions rarSupport ∨
            pathlibExt e.path = []
        · by_cases h3 :
            0 < (search_in_file E fs e.path pattern case_sensitive regex).match_count
          · simp [dirStep, dirEligible, h1, h2, h3, List.filter_cons]
          · simp [dirStep, dirEligible, h1, h2, h3, List.filter_cons]
        · simp [dirStep, dirEligible, h1, h2, List.filter_cons]
      · simp [dirStep, dirEligible, h1, List.filter_cons]

/-- Claim C2: `search_in_directory` returns exactly the results of the
enumerated regular files whose (pathlib) extension is supported or empty
and whose search found at least one match, in enumeration order; every
returned result has `match_count > 0`, and non-files and files with an
unsupported non-empty extension are never searched. -/
theorem search_in_directory_filters (E : RegexEngine) (fs : Fs) (rarSupport : Bool)
    (files : List FsEntry) (pattern : List Char) (case_sensitive regex : Bool) :
    search_in_directory E fs rarSupport files pattern case_sensitive regex =
      ((files.filter (dirEligible rarSupport)).map
        (fun e => search_in_file E fs e.path pattern case_sensitive regex)).filter
          (fun res => decide (0 < res.match_count)) ∧
    ∀ res ∈ search_in_directory E fs rarSupport files pattern case_sensitive regex,
      0 < res.match_count := by
  have heq := dirFold_spec E fs rarSupport pattern case_sensitive regex files []
  rw [List.nil_append] at heq
  refine ⟨heq, fun res h => ?_⟩
  rw [search_in_directory, heq] at h
  exact of_decide_eq_true (List.mem_filter.mp h).2

/-- Witness for `search_in_directory_filters`: a single matching `.txt`
file is returned, and its `match_count` is positive. -/
theorem search_in_directory_filters_witness :
    search_in_file noRegex fsText "a.txt".toList "hit".toList false false ∈
      search_in_directory noRegex fsText false [entW] "hit".toList false false ∧
    0 < (search_in_file noRegex fsText "a.txt".toList "hit".toList
      false false).match_count :=
  ⟨by decide, (search_in_directory_filters noRegex fsText false
    [entW] "hit".toList false false).2 _ (by decide)⟩

/-- Key set of a Python dict after `d[k] = v`: `k` plus the existing keys
(an existing binding to `k` is overwritten in place). -/
theorem keys_dictInsert (d : List (List Char × List Char)) (k v n : List Char) :
    n ∈ (dictInsert d k v).map Prod.fst ↔ k = n ∨ n ∈ d.map Prod.fst := by
  unfold dictInsert
  by_cases h : d.any (fun p => p.1 == k)
  · rw [if_pos h]
    have hk : k ∈ d.map Prod.fst := by
      obtain ⟨p, hp, he⟩ := List.any_eq_true.mp h
      exact List.mem_map.mpr ⟨p, hp, beq_iff_eq.mp he⟩
    have hmap : (d.map (fun p => if p.1 == k then (k, v) else p)).map Prod.fst
        = d.map Prod.fst := by
      rw [List.map_map]
      apply List.map_congr_left
      intro p _
      by_cases hpk : p.1 = k
      · simp [hpk]
      · simp [hpk]
    rw [hmap]
    constructor
    · exact Or.inr
    · rintro (rfl | hn)
      · exact hk
      · exact hn
  · rw [if_neg h]
    simp [or_comm, eq_comm]

/-- The zip-reading loop, started from any accumulated dict: a name is a
key of the final dict iff it was already a key or belongs to a remaining
non-directory member with allow-listed extension whose read succeeded. -/
theorem zipFold_keys (members : List ZipMember) (n : List Char) :
    ∀ acc, n ∈ ((members.foldl zipStep acc).map Prod.fst) ↔
      n ∈ acc.map Prod.fst ∨
        ∃ m ∈ members, zipIsDir m = false ∧ memberExt m.filename ∈ innerAllow ∧
          (∃ t, m.data = some t) ∧ m.filename = n := by
  induction members with
  | nil => intro acc; simp
  | cons m ms ih =>
      intro acc
      rw [List.foldl_cons, ih]
      by_cases h1 : zipIsDir m = true
      · simp [zipStep, h1]
      · have h1' : zipIsDir m = false := by revert h1; cases zipIsDir m <;> simp
        by_cases h2 : memberExt m.filename ∈ innerAllow
        · cases hd : m.data with
          | none => simp [zipStep, h1', h2, hd]
          | some t =>
              have hstep : zipStep acc m = dictInsert acc m.filename t := by
                simp [zipStep, h1', h2, hd]
              rw [hstep, keys_dictInsert]
              simp only [List.mem_cons, exists_eq_or_imp, h1', h2, hd, true_and,
                Option.some.injEq, exists_eq', and_true, eq_self_iff_true]
              tauto
        · simp [zipStep, h1', h2]

/-- The tar-reading loop, started from any accumulated dict: a name is a
key of the final dict iff it was already a key or belongs to a remaining
REGULAR-FILE member with allow-listed extension whose extract+read
succeeded. -/
theorem tarFold_keys (members : List TarMember) (n : List Char) :
    ∀ acc, n ∈ ((members.foldl tarStep acc).map Prod.fst) ↔
      n ∈ acc.map Prod.fst ∨
        ∃ m ∈ members, m.kind = TarKind.file ∧ memberExt m.name ∈ innerAllow ∧
          (∃ t, m.data = some t) ∧ m.name = n := by
  induction members with
  | nil => intro acc; simp
  | cons m ms ih =>
      intro acc
      rw [List.foldl_cons, ih]
      by_cases h1 : m.kind = TarKind.file
      · by_cases h2 : memberExt m.name ∈ innerAllow
        · cases hd : m.data with
          | none => simp [tarStep, h1, h2, hd]
          | some t =>
              have hstep : tarStep acc m = dictInsert acc m.name t := by
                simp [tarStep, h1, h2, hd]
              rw [hstep, keys_dictInsert]
              simp only [List.mem_cons, exists_eq_or_imp, h1, h2, hd, true_and,
                Option.some.injEq, exists_eq', and_true, eq_self_iff_true]
              tauto
        · simp [tarStep, h1, h2]
      · simp [tarStep, h1]

/-- Claim C3 (amended): decoding a zip archive yields a mapping whose key
set is exactly the names of the non-directory entries with allow-listed
extension that decode successfully; decoding a tar/tar.gz archive yields
the names of the REGULAR-FILE members with allow-listed extension that
decode successfully (tar members that are neither files nor directories,
such as symlinks, are skipped too).  Excluded extensions such as `.bin`,
`ini`, `cfg` are not in the allow-list and so never contribute a key. -/
theorem archive_decode_key_set (zms : List ZipMember) (tms : List TarMember)
    (n : List Char) :
    (n ∈ (_read_zip_file zms).map Prod.fst ↔
      ∃ m ∈ zms, zipIsDir m = false ∧ memberExt m.filename ∈ innerAllow ∧
        (∃ t, m.data = some t) ∧ m.filename = n) ∧
    (n ∈ (_read_tar_file tms).map Prod.fst ↔
      ∃ m ∈ tms, m.kind = TarKind.file ∧ memberExt m.name ∈ innerAllow ∧
        (∃ t, m.data = some t) ∧ m.name = n) := by
  constructor
  · simpa [_read_zip_file] using zipFold_keys zms n []
  · simpa [_read_tar_file] using tarFold_keys tms n []

/-- Counterexample to claim C3 as stated: a tar member that is NOT a
directory, has the allow-listed extension `txt` and reads successfully —
so the claim predicts its name in the mapping's key set — yet
`_read_tar_file` skips it, because the code keeps only members with
`member.isfile()` and this member is a symlink-like non-file. -/
theorem tar_nonfile_member_counterexample :
    claimTarKeys [tarSymlinkW] "a.txt".toList ∧
    "a.txt".toList ∉ (_read_tar_file [tarSymlinkW]).map Prod.fst := by
  constructor
  · exact ⟨tarSymlinkW, List.mem_singleton.mpr rfl, by decide, by decide,
      by decide, rfl⟩
  · decide

/-- Splitting a Python slice at an interior index. -/
theorem slice_append (l : List Char) (a b c : Nat) (h1 : a ≤ b) (h2 : b ≤ c) :
    slice l a c = slice l a b ++ slice l b c := by
  unfold slice
  have h3 : c - a = (b - a) + (c - b) := by omega
  rw [h3, List.take_add]
  congr 1
  rw [List.drop_drop]
  have h4 : a + (b - a) = b := by omega
  rw [h4]

/-- Length of a Python slice. -/
theorem slice_length (l : List Char) (a b : Nat) :
    (slice l a b).length = min b l.length - a := by
  simp [slice]
  omega

/-- `_get_context` decomposes into the clipped 50-character window before
the match, the match itself, the clipped 50-character window after it, and
an ellipsis on each side exactly when that side was clipped. -/
theorem getContext_decomposition (line : List Char) (s e : Nat)
    (h1 : s ≤ e) (h2 : e ≤ line.length) :
    _get_context line s e 50 =
      (if 50 < s then dots else []) ++ slice line (s - 50) s ++ slice line s e ++
        slice line e (min line.length (e + 50)) ++
        (if e + 50 < line.length then dots else []) ∧
    (slice line (s - 50) s).length ≤ 50 ∧
    (slice line e (min line.length (e + 50))).length ≤ 50 := by
  refine ⟨?_, ?_, ?_⟩
  · have hs1 : slice line (s - 50) (min line.length (e + 50)) =
        slice line (s - 50) s ++ slice line s e ++
          slice line e (min line.length (e + 50)) := by
      rw [slice_append line (s - 50) s (min line.length (e + 50)) (by omega)
          (by omega),
        slice_append line s e (min line.length (e + 50)) h1 (by omega),
        List.append_assoc]
    unfold _get_context
    by_cases hA : 50 < s <;> by_cases hB : e + 50 < line.length
    · have hA' : 0 < s - 50 := by omega
      have hB' : min line.length (e + 50) < line.length := by omega
      simp [hA, hB, hA', hB', hs1, List.append_assoc]
    · have hA' : 0 < s - 50 := by omega
      have hB' : ¬min line.length (e + 50) < line.length := by omega
      simp [hA, hB, hA', hB', hs1, List.append_assoc]
    · have hA' : ¬0 < s - 50 := by omega
      have hB' : min line.length (e + 50) < line.length := by omega
      simp [hA, hB, hA', hB', hs1, List.append_assoc]
    · have hA' : ¬0 < s - 50 := by omega
      have hB' : ¬min line.length (e + 50) < line.length := by omega
      simp [hA, hB, hA', hB', hs1, List.append_assoc]
  · rw [slice_length]; omega
  · rw [slice_length]; omega

/-- Claim C8 (amended): for every match `[start, end)` within a line, the
context is up to 50 characters each side, clipped to the line, with an
ellipsis exactly on the clipped sides; hence a match at offset 100 of a
200-character line starts and ends with `"..."` and has length at most
`100 + len(match) + 6` — PROVIDED `end + 50` is still inside the line
(match shorter than 50 characters); a longer match is not clipped on the
right and gets no trailing ellipsis. -/
theorem context_window_spec :
    (∀ (line : List Char) (s e : Nat), s ≤ e → e ≤ line.length →
      _get_context line s e 50 =
        (if 50 < s then dots else []) ++ slice line (s - 50) s ++ slice line s e ++
          slice line e (min line.length (e + 50)) ++
          (if e + 50 < line.length then dots else []) ∧
      (slice line (s - 50) s).length ≤ 50 ∧
      (slice line e (min line.length (e + 50))).length ≤ 50) ∧
    (∀ (line : List Char) (mlen : Nat), line.length = 200 → 100 + mlen + 50 < 200 →
      (∃ mid, _get_context line 100 (100 + mlen) 50 = dots ++ mid ++ dots) ∧
      (_get_context line 100 (100 + mlen) 50).length ≤ 100 + mlen + 6) := by
  constructor
  · exact fun line s e h1 h2 => getContext_decomposition line s e h1 h2
  · intro line mlen hlen hm
    have h1 : (100 : Nat) ≤ 100 + mlen := by omega
    have h2 : 100 + mlen ≤ line.length := by omega
    obtain ⟨heq, _, _⟩ := getContext_decomposition line 100 (100 + mlen) h1 h2
    rw [if_pos (by omega : (50 : Nat) < 100),
      if_pos (by omega : 100 + mlen + 50 < line.length)] at heq
    constructor
    · exact ⟨slice line (100 - 50) 100 ++ slice line 100 (100 + mlen) ++
        slice line (100 + mlen) (min line.length (100 + mlen + 50)),
        by rw [heq]; simp [List.append_assoc]⟩
    · rw [heq]
      simp [List.length_append, dots, slice_length]
      omega

/-- Witness for `context_window_spec`: a zero-length match at offset 100 of
a concrete 200-character line yields a context wrapped in ellipses on both
sides, of length at most 106. -/
theorem context_window_spec_witness :
    (∃ mid, _get_context (List.replicate 200 'b') 100 (100 + 0) 50 =
      dots ++ mid ++ dots) ∧
    (_get_context (List.replicate 200 'b') 100 (100 + 0) 50).length ≤ 100 + 0 + 6 :=
  context_window_spec.2 (List.replicate 200 'b') 0 (by decide) (by decide)

/-- Counterexample to claim C8 as stated: a match spanning `[100, 160)`
within a 200-character line — a match at offset 100, as in the claim — has
`end + 50` beyond the line, so nothing is clipped on the right and the
produced context does NOT end with `"..."` (here it ends in `'a'`). -/
theorem context_long_match_counterexample :
    ((100 : Nat) ≤ 160 ∧ 160 ≤ (List.replicate 200 'a' : List Char).length) ∧
    ¬∃ t, _get_context (List.replicate 200 'a') 100 160 50 = t ++ dots := by
  refine ⟨⟨by decide, by decide⟩, ?_⟩
  rintro ⟨t, ht⟩
  have hlen : (_get_context (List.replicate 200 'a') 100 160 50).length = 153 := by
    decide
  have htl : t.length = 150 := by
    have hc := congrArg List.length ht
    rw [hlen] at hc
    simp [dots] at hc
    omega
  have hdrop : (_get_context (List.replicate 200 'a') 100 160 50).drop 150 = dots := by
    rw [ht, ← htl, List.drop_left]
  have hne : ¬(_get_context (List.replicate 200 'a') 100 160 50).drop 150 = dots := by
    decide
  exact hne hdrop

/-- Python `find` with the empty needle: reports the start index itself
while it is at most the length of the haystack, and no match beyond. -/
theorem strFind_nil_eq (hay : List Char) (start : Nat) :
    strFind hay [] start = if start ≤ hay.length then some start else none := by
  unfold strFind
  by_cases h : start ≤ hay.length
  · rw [if_pos h, if_pos h]
    have h2 : hay.length + 1 - start = (hay.length - start) + 1 := by omega
    rw [h2]
    simp [findFromAux, List.isPrefixOf]
  · rw [if_neg h, if_neg h]

/-- The literal `while` loop with the empty pattern, from any start
position and with enough fuel, produces one record per remaining position
`start, start+1, ..., length` and then stops. -/
theorem scanIter_nil (line searchLine : List Char)
    (hl : searchLine.length = line.length) (lineNo : Nat) :
    ∀ fuel start, line.length + 2 ≤ fuel + start →
      scanIter line searchLine [] 0 lineNo start fuel =
        (List.range' start (line.length + 1 - start)).map
          (fun pos => lineRecord line lineNo pos (pos + 0)) := by
  intro fuel
  induction fuel with
  | zero =>
      intro start h
      have h0 : line.length + 1 - start = 0 := by omega
      rw [h0]
      simp [scanIter]
  | succ n ih =>
      intro start h
      rw [scanIter, strFind_nil_eq, hl]
      by_cases hs : start ≤ line.length
      · rw [if_pos hs]
        have hr : line.length + 1 - start = (line.length - start) + 1 := by omega
        have ht : line.length + 1 - (start + 1) = line.length - start := by omega
        rw [hr, List.range'_succ, List.map_cons]
        show lineRecord line lineNo start (start + 0) ::
            scanIter line searchLine [] 0 lineNo (start + 1) n =
          lineRecord line lineNo start (start + 0) ::
            (List.range' (start + 1) (line.length - start)).map
              (fun pos => lineRecord line lineNo pos (pos + 0))
        rw [ih (start + 1) (by omega), ht]
      · rw [if_neg hs]
        have h0 : line.length + 1 - start = 0 := by omega
        rw [h0]
        simp

/-- `search_in_text` in literal mode with the empty pattern records, on
each line, one empty-text match at every position `0 .. len(line)`. -/
theorem literalLine_nil (line : List Char) (case_sensitive : Bool) (lineNo : Nat) :
    literalLine line [] case_sensitive lineNo =
      (List.range (line.length + 1)).map (fun pos =>
        ({ line := lineNo, position := pos, matched := [],
           context := _get_context line pos pos 50, full_line := line } :
          MatchRecord)) := by
  unfold literalLine
  have hls : (if case_sensitive then line else line.map Char.toLower).length =
      line.length := by cases case_sensitive <;> simp
  have hpu : (if case_sensitive then ([] : List Char)
      else ([] : List Char).map Char.toLower) = [] := by cases case_sensitive <;> simp
  rw [hpu]
  rw [List.length_nil, scanIter_nil line _ hls lineNo (line.length + 2) 0 (by omega)]
  rw [Nat.sub_zero, ← List.range_eq_range']
  apply List.map_congr_left
  intro pos _
  simp [lineRecord, slice]

/-- Claim C10: for every non-empty text, literal search with the empty
pattern terminates and returns, for each line, exactly `len(line) + 1`
records, at positions 0 through `len(line)`, each with empty matched text
(the `+1`-advance loop stops because `find` past the end of the line
reports no match). -/
theorem empty_pattern_all_positions (E : RegexEngine) (text : List Char)
    (case_sensitive : Bool) (h : text ≠ []) :
    search_in_text E text [] case_sensitive false =
      ((text.splitOn '\n').enum.map (fun p =>
        (List.range (p.2.length + 1)).map (fun pos =>
          ({ line := p.1 + 1, position := pos, matched := [],
             context := _get_context p.2 pos pos 50, full_line := p.2 } :
            MatchRecord)))).flatten := by
  have hne : text.isEmpty = false := by
    cases text with
    | nil => exact absurd rfl h
    | cons a t => rfl
  simp only [search_in_text, hne, Bool.false_eq_true, if_false]
  simp only [literalLine_nil]

/-- Witness for `empty_pattern_all_positions` on the two-line text
`"a\nbc"`: line 1 gets 2 records, line 2 gets 3, at all positions. -/
theorem empty_pattern_all_positions_witness :
    search_in_text noRegex "a\nbc".toList [] false false =
      ((("a\nbc".toList).splitOn '\n').enum.map (fun p =>
        (List.range (p.2.length + 1)).map (fun pos =>
          ({ line := p.1 + 1, position := pos, matched := [],
             context := _get_context p.2 pos pos 50, full_line := p.2 } :
            MatchRecord)))).flatten :=
  empty_pattern_all_positions noRegex "a\nbc".toList false (by decide)

end UniSearch
